import Mathlib

/-!
Shallow embedding of `py_fit_export` (files `wrk_info_export.py`, `utils.py`,
`fit_info_extractor.py`) and proofs about the natural-language specification.

Machine conventions:
* Scalar cell values are modelled by `Value`; timestamps carry their local
  clock reading in minutes together with an optional UTC offset in minutes
  (`none` = naive).
* Worksheets are total functions from `(row, column)` to optional cell
  values / style references, together with an explicit style heap so that
  the by-value / by-reference distinction of Python style objects is
  observable.
* Errors mirror the `raise` sites of the source, one constructor per site.
-/

/-- Scalar values that can appear in message dicts and worksheet cells.
Timestamps (`dt`) and times of day (`tod`) store the local clock reading in
minutes and an optional timezone offset from UTC in minutes (`none` means
naive). Numbers are modelled as integers since the code never computes with
them. -/
inductive Value where
  | str (s : String)
  | int (n : Int)
  | dt (clock : Int) (tz : Option Int)
  | tod (clock : Int) (tz : Option Int)
  deriving DecidableEq, Repr

/-- The fixed reference offset `CET = timezone(timedelta(hours=1))` from
`utils.py`, in minutes. -/
def CET : Int := 60

/-- Embedding of `utils.excel_safe_datetime`: a timezone-aware `datetime` is
converted to CET (`astimezone`) and stripped of its tzinfo; a timezone-aware
`time` only has its tzinfo replaced by `None` (the clock reading is kept);
everything else passes through unchanged. -/
def excel_safe_datetime : Value → Value
  | .dt clock (some off) => .dt (clock - off + CET) none
  | .tod clock (some _) => .tod clock none
  | v => v

/-- Python `isinstance(val, (datetime, time))`. -/
def isDtOrTime : Value → Bool
  | .dt _ _ => true
  | .tod _ _ => true
  | _ => false

/-- Python `isinstance(v, datetime)`. -/
def isDt : Value → Bool
  | .dt _ _ => true
  | _ => false

/-- The value conversion applied in step 4 of `append_table_values`:
`excel_safe_datetime(val) if isinstance(val, (datetime, time)) else val`. -/
def convertVal (v : Value) : Value :=
  if isDtOrTime v then excel_safe_datetime v else v

/-- Errors of the embedded program, one constructor per `raise` site (plus
decoder and predicate failures surfaced from external callables). -/
inductive Err where
  | runtimeTotalsRow
  | valueInvalidColumns (bad : List String)
  | valueRowNotEmpty (row : Nat)
  | keySheetNotFound (name : String)
  | keyTableNotFound (name : String)
  | keyMissingExtracted (key : String)
  | refParseError
  | decodeError (msg : String)
  | predicateError (msg : String)
  deriving DecidableEq, Repr

/- ## Column letters and decimal digits (for `make_ref` and the external
`range_boundaries`) -/

/-- Is the character an upper-case column letter `A`–`Z`? -/
def isUpperAZ (c : Char) : Bool := 65 ≤ c.toNat && c.toNat ≤ 90

/-- Is the character a decimal digit `0`–`9`? -/
def isDigit09 (c : Char) : Bool := 48 ≤ c.toNat && c.toNat ≤ 57

/-- Fuelled helper for `colLetters` (structural recursion so that the
kernel can evaluate it; the fuel is an upper bound on the index). -/
def colLettersAux : Nat → Nat → List Char
  | _, 0 => []
  | 0, _ + 1 => []
  | fuel + 1, n + 1 => colLettersAux fuel (n / 26) ++ [Char.ofNat (65 + n % 26)]

/-- Bijective base-26 rendering of a positive column index, as done by
`openpyxl.utils.get_column_letter` (1 ↦ "A", 26 ↦ "Z", 27 ↦ "AA"). -/
def colLetters (n : Nat) : List Char := colLettersAux n n

/-- Inverse of `colLetters`: the column index denoted by a letter run, as in
`openpyxl.utils.column_index_from_string`. -/
def lettersToNat (ls : List Char) : Nat :=
  ls.foldl (fun a c => a * 26 + (c.toNat - 64)) 0

/-- Fuelled helper for `digits10` (structural recursion so that the kernel
can evaluate it; the fuel is an upper bound on the number). -/
def digits10Aux : Nat → Nat → List Char
  | 0, n => [Char.ofNat (48 + n)]
  | fuel + 1, n =>
    if n < 10 then [Char.ofNat (48 + n)]
    else digits10Aux fuel (n / 10) ++ [Char.ofNat (48 + n % 10)]

/-- Decimal rendering of a natural number (digit characters, most
significant first). -/
def digits10 (n : Nat) : List Char := digits10Aux n n

/-- Inverse of `digits10`. -/
def digitsToNat (ds : List Char) : Nat :=
  ds.foldl (fun a c => a * 10 + (c.toNat - 48)) 0

/-- Embedding of `openpyxl.utils.get_column_letter` (external). -/
def get_column_letter (n : Nat) : String := String.mk (colLetters n)

/-- Embedding of `utils.make_ref`: renders
`"{col_letter(min_col)}{min_row}:{col_letter(max_col)}{max_row}"`. -/
def make_ref (min_col min_row max_col max_row : Nat) : String :=
  String.mk (colLetters min_col ++ digits10 min_row ++ ':' ::
    (colLetters max_col ++ digits10 max_row))

/-- Parse a leading `letters digits` cell reference from a character list,
returning column index, row index and the unconsumed remainder. Both runs
must be non-empty. -/
def parseColRow (cs : List Char) : Option (Nat × Nat × List Char) :=
  match cs.takeWhile isUpperAZ, (cs.dropWhile isUpperAZ).takeWhile isDigit09 with
  | l0 :: ls, d0 :: ds =>
    some (lettersToNat (l0 :: ls), digitsToNat (d0 :: ds),
      (cs.dropWhile isUpperAZ).dropWhile isDigit09)
  | _, _ => none

/-- Model of the external `openpyxl.utils.range_boundaries` for the plain
two-cell references `"A1:D7"` this program produces and stores: parses
`letters digits ':' letters digits` into `(min_col, min_row, max_col,
max_row)`, failing on anything else. -/
def range_boundaries (s : String) : Option (Nat × Nat × Nat × Nat) :=
  match parseColRow s.data with
  | some (c1, r1, ':' :: rest) =>
    match parseColRow rest with
    | some (c2, r2, []) => some (c1, r1, c2, r2)
    | _ => none
  | _ => none

/- ## Data model: tables, worksheets, workbooks -/

/-- An Excel table as used by the code: its ordered column names
(`table.tableColumns`), its range string (`table.ref`) and the
`totalsRowShown` flag. -/
structure Table where
  cols : List String
  ref : String
  totalsRowShown : Bool
  deriving DecidableEq, Repr

/-- A worksheet: total maps from `(row, column)` to the optional cell value
and optional style reference, an explicit heap of style objects (payload
modelled as `Nat`) so that sharing of style objects between cells is
observable, per-row heights, and the named tables living on the sheet. -/
structure Worksheet where
  cellVal : Nat × Nat → Option Value
  cellStyle : Nat × Nat → Option Nat
  heap : List Nat
  rowHeight : Nat → Option Int
  tables : List (String × Table)

/-- A workbook: named worksheets. -/
structure Workbook where
  sheets : List (String × Worksheet)

/-- Value of the style object a heap address points to. -/
def styleVal (w : Worksheet) (addr : Nat) : Nat := w.heap.getD addr 0

/-- In-place mutation of the style object at a heap address (used to state
that mutating one cell's style object does not alter another's). -/
def setStyleVal (w : Worksheet) (addr : Nat) (s : Nat) : Worksheet :=
  { w with heap := w.heap.set addr s }

/-- Embedding of `{tc.name: i for i, tc in enumerate(table.tableColumns)}`
followed by a dict lookup: maps a column name to the index of its last
occurrence in the header order (later duplicates overwrite earlier ones in
a Python dict comprehension). -/
def columnsMap (cols : List String) (name : String) : Option Nat :=
  ((cols.enum.filter (fun p => p.2 = name)).getLast?).map Prod.fst

/-- Embedding of `ws.cell(row=r, column=c, value=v)`: openpyxl assigns the
value only when it is not `None`. -/
def cellWrite (w : Worksheet) (r c : Nat) (v : Option Value) : Worksheet :=
  match v with
  | none => w
  | some x =>
    { w with cellVal := fun p => if p = (r, c) then some x else w.cellVal p }

/-- Code-point comparison of strings, as Python `sorted` orders `str`. -/
def charListLe : List Char → List Char → Bool
  | [], _ => true
  | _ :: _, [] => false
  | a :: as, b :: bs =>
    if a.toNat < b.toNat then true
    else if b.toNat < a.toNat then false
    else charListLe as bs

/-- Python `sorted` on a list of strings. -/
def sortStr (l : List String) : List String :=
  List.insertionSort (fun a b => charListLe a.data b.data = true) l

/-- Python `s.startswith("=")`. -/
def startsWithEq (s : String) : Bool :=
  match s.data with
  | c :: _ => c = '='
  | [] => false

/- ## Model of the external `openpyxl.formula.translate.Translator` -/

/-- Formula tokens: either a plain character or an A1-style cell reference
with absolute-marker flags for the column and the row. -/
inductive Tok where
  | lit (c : Char)
  | ref (colAbs : Bool) (col : Nat) (rowAbs : Bool) (row : Nat)
  deriving DecidableEq, Repr

/-- Try to read a cell reference `[$]letters[$]digits` at the head of the
character list, returning the token and the unconsumed remainder. -/
def takeRef (cs : List Char) : Option (Tok × List Char) :=
  let pc := match cs with
    | '$' :: r => (true, r)
    | _ => (false, cs)
  match pc.2.takeWhile isUpperAZ, pc.2.dropWhile isUpperAZ with
  | [], _ => none
  | ls, rest1 =>
    let pr := match rest1 with
      | '$' :: r => (true, r)
      | _ => (false, rest1)
    match pr.2.takeWhile isDigit09, pr.2.dropWhile isDigit09 with
    | [], _ => none
    | ds, rest2 =>
      some (.ref pc.1 (lettersToNat ls) pr.1 (digitsToNat ds), rest2)

/-- Fuelled scanner turning a formula string into tokens (the fuel is the
remaining character count; every step consumes at least one character). -/
def scanToksAux : Nat → List Char → List Tok
  | 0, _ => []
  | _, [] => []
  | fuel + 1, c :: cs =>
    match takeRef (c :: cs) with
    | some (t, rest) => t :: scanToksAux fuel rest
    | none => .lit c :: scanToksAux fuel cs

/-- Tokenize a formula string. -/
def scanToks (cs : List Char) : List Tok := scanToksAux cs.length cs

/-- Shift a token's row by `d` when the row reference is relative; columns
and absolute rows are unchanged. -/
def shiftTok (d : Nat) : Tok → Tok
  | .ref ca c ra r => .ref ca c ra (if ra then r else r + d)
  | t => t

/-- Render a token back to characters. -/
def renderTok : Tok → List Char
  | .lit c => [c]
  | .ref ca col ra row =>
    (if ca then ['$'] else []) ++ colLetters col ++
      (if ra then ['$'] else []) ++ digits10 row

/-- Model of the external `Translator(...).translate_formula(...)` for the
same-column translation `d` rows down performed by the code: every A1-style
reference with a relative row has its row shifted by `d`; absolute rows,
all columns and all other characters are unchanged. This reproduces
spreadsheet fill-down semantics at the interface boundary. -/
def translate_formula (s : String) (d : Nat) : String :=
  String.mk (((scanToks s.data).map (shiftTok d)).map renderTok).flatten

/- ## Embedding of `FitToExcelExporter.append_table_values` -/

/-- The absolute column indices of the table area,
`range(min_col, max_col + 1)`. -/
def colRangeList (min_col max_col : Nat) : List Nat :=
  List.range' min_col (max_col + 1 - min_col)

/-- Step 4 of `append_table_values`: for each `(col, val)` of `row_values`,
convert the value (`excel_safe_datetime` on datetimes/times) and write it
at `(row_i, min_col + columns[col])`. The `none` branch of the column
lookup is unreachable after the invalid-column check. -/
def writeRowValues (min_col row_i : Nat) (cols : List String)
    (rv : List (String × Option Value)) (w : Worksheet) : Worksheet :=
  rv.foldl (fun acc kv =>
    match columnsMap cols kv.1 with
    | some i => cellWrite acc row_i (min_col + i) (kv.2.map convertVal)
    | none => acc) w

/-- Style half of one column of step 5: `if src.has_style: dst._style =
copy(src._style)`. The copy is a fresh heap object carrying the same
payload, mirroring Python's `copy` of the style object. -/
def styleCopyCol (max_row row_i : Nat) (w : Worksheet) (col_i : Nat) :
    Worksheet :=
  match w.cellStyle (max_row, col_i) with
  | some a =>
    { w with
      cellStyle := fun p =>
        if p = (row_i, col_i) then some w.heap.length else w.cellStyle p,
      heap := w.heap ++ [w.heap.getD a 0] }
  | none => w

/-- Formula half of one column of step 5: when the destination cell is
still empty and the source cell holds a string starting with `"="`, write
the translated formula into the destination cell. -/
def formulaCol (max_row row_i : Nat) (w : Worksheet) (col_i : Nat) :
    Worksheet :=
  match w.cellVal (max_row, col_i) with
  | some (.str s) =>
    if w.cellVal (row_i, col_i) = none ∧ startsWithEq s = true then
      { w with cellVal := fun p =>
          if p = (row_i, col_i) then
            some (.str (translate_formula s (row_i - max_row)))
          else w.cellVal p }
    else w
  | _ => w

/-- The value the formula-continuation step leaves in the destination cell,
as a function of the source cell value and the destination cell value: the
translated source formula exactly when the destination is still empty and
the source holds a string starting with `"="`, the destination value
otherwise. -/
def formulaFill (src dst : Option Value) (d : Nat) : Option Value :=
  match src with
  | some (.str s) =>
    if dst = none ∧ startsWithEq s = true then
      some (.str (translate_formula s d))
    else dst
  | _ => dst

/-- One column of step 5 of `append_table_values`: style copy, then
formula continuation, in source order. -/
def fixupCol (max_row row_i : Nat) (w : Worksheet) (col_i : Nat) : Worksheet :=
  formulaCol max_row row_i (styleCopyCol max_row row_i w col_i) col_i

/-- Step 5 of `append_table_values`: only when the table already has a data
row, copy the previous last row's height to the new row and run `fixupCol`
over the full column range. -/
def fixupRow (min_col min_row max_col max_row row_i : Nat)
    (w : Worksheet) : Worksheet :=
  if max_row > min_row then
    let w1 := { w with rowHeight := fun r =>
      if r = row_i then w.rowHeight max_row else w.rowHeight r }
    (colRangeList min_col max_col).foldl (fixupCol max_row row_i) w1
  else w

/-- Embedding of `FitToExcelExporter.append_table_values`. The Python
`isinstance(row_values, dict)` check of step 3 is vacuous here because
`row_values` is typed; all other checks and mutations follow the source in
order. Errors can only be raised before any mutation, as in the source. -/
def appendTV (ws : Worksheet) (table : Table)
    (rv : List (String × Option Value)) : Except Err (Worksheet × Table) :=
  if table.totalsRowShown then .error .runtimeTotalsRow
  else
    match range_boundaries table.ref with
    | none => .error .refParseError
    | some (min_col, min_row, max_col, max_row) =>
      let row_i := max_row + 1
      let faulty := ((rv.map Prod.fst).filter
        (fun k => !(table.cols.contains k))).dedup
      if faulty ≠ [] then .error (.valueInvalidColumns (sortStr faulty))
      else if (colRangeList min_col max_col).any
          (fun c => (ws.cellVal (row_i, c)).isSome) then
        .error (.valueRowNotEmpty row_i)
      else
        let ws4 := writeRowValues min_col row_i table.cols rv ws
        let ws5 := fixupRow min_col min_row max_col max_row row_i ws4
        .ok (ws5, { table with ref := make_ref min_col min_row max_col row_i })

/-- The worksheet after a call to `append_table_values`: the updated one on
success, the untouched one when the call raised. -/
def appendWS (ws : Worksheet) (table : Table)
    (rv : List (String × Option Value)) : Worksheet :=
  match appendTV ws table rv with
  | .ok (w, _) => w
  | .error _ => ws

/-- The table after a call to `append_table_values`: the updated one on
success, the untouched one when the call raised. -/
def appendTbl (ws : Worksheet) (table : Table)
    (rv : List (String × Option Value)) : Table :=
  match appendTV ws table rv with
  | .ok (_, t) => t
  | .error _ => table

/- ## Embedding of `FitInfoExtractor` -/

/-- A top-level value of the decoded FIT mapping: either a list of
messages, whose elements may fail the `isinstance(..., dict)` check
(`none`), or something that is not a list. Message dicts map field names
to values; `.get` of a missing key and of a stored `None` are both
observed as `none` by this code. -/
inductive FitTop where
  | mesgs (l : List (Option (List (String × Value))))
  | nonList

/-- The decoded Activity Record: mapping from message-type name to a
top-level value. -/
structure ActivityRecord where
  fit : List (String × FitTop)

/-- Embedding of `FitInfoExtractor._extract_info_dict`: the first element
of the list stored under the key, when that value is a non-empty list and
its first element is a dict; otherwise the empty dict. -/
def extractInfoDict (fit : List (String × FitTop)) (key : String) :
    List (String × Value) :=
  match fit.lookup key with
  | some (.mesgs (first :: _)) => first.getD []
  | _ => []

/-- The class attribute `FIELDS` (a frozenset in the source; only its
membership matters, the iteration order of a frozenset is unspecified). -/
def FIELDS : List String :=
  ["wrk_sport", "wrk_start_time", "wrk_name", "wrk_length", "wrk_load"]

/-- Embedding of the field getters and of `FitInfoExtractor.extract()` with
the default field set: one entry per field of `FIELDS`, each resolved
independently from the first session / workout message. `wrk_start_time`
applies `excel_safe_datetime` when the stored value is a datetime and
yields `None` otherwise. -/
def extract (r : ActivityRecord) : List (String × Option Value) :=
  let session := extractInfoDict r.fit "session_mesgs"
  let workout := extractInfoDict r.fit "workout_mesgs"
  [("wrk_sport", session.lookup "sport"),
   ("wrk_start_time",
     match session.lookup "start_time" with
     | some v => if isDt v then some (excel_safe_datetime v) else none
     | none => none),
   ("wrk_name", workout.lookup "wkt_name"),
   ("wrk_length", session.lookup "total_distance"),
   ("wrk_load", session.lookup "training_load_peak")]

/- ## Embedding of the filter loop, column mapping and batch coordinator -/

/-- A filter value: either a (possibly `None`) literal, compared with `==`
after a presence check, or a callable predicate invoked on the raw
extracted value (a Python callable can raise, hence `Except`). -/
inductive FilterVal where
  | lit (v : Option Value)
  | pred (f : Option Value → Except Err Bool)

/-- Embedding of the filter loop of `FitToExcelExporter._excel_exporter`:
entries are evaluated in order; a literal passes when the extracted value
is present (`is not None`) and equal; a predicate is invoked on the raw
(possibly absent) value; the first failing entry stops evaluation with
`false` (the code prints a message and returns). -/
def passFilters : List (String × FilterVal) → List (String × Option Value) →
    Except Err Bool
  | [], _ => .ok true
  | (key, fv) :: rest, key_info =>
    let fit_info_val : Option Value := (key_info.lookup key).join
    match fv with
    | .pred f =>
      match f fit_info_val with
      | .error e => .error e
      | .ok passed => if passed then passFilters rest key_info else .ok false
    | .lit v =>
      if fit_info_val.isSome ∧ fit_info_val = v then passFilters rest key_info
      else .ok false

/-- Python dict insertion: overwrite in place when the key exists, append
otherwise. -/
def dictInsert (l : List (String × Option Value)) (k : String)
    (v : Option Value) : List (String × Option Value) :=
  if (l.map Prod.fst).contains k then
    l.map (fun p => if p.1 = k then (k, v) else p)
  else l ++ [(k, v)]

/-- Embedding of the column-mapping loop of `_excel_exporter`:
`row_values[col_new] = key_info[col_old]`, raising `KeyError` when the
source key is absent from the extracted mapping. -/
def buildRowValues (column_map : List (String × String))
    (key_info : List (String × Option Value)) :
    Except Err (List (String × Option Value)) :=
  column_map.foldl (fun acc p =>
    match acc with
    | .error e => .error e
    | .ok rv =>
      match key_info.lookup p.1 with
      | some v => .ok (dictInsert rv p.2 v)
      | none => .error (.keyMissingExtracted p.1)) (.ok [])

/-- Embedding of `FitToExcelExporter._excel_exporter` for one activity:
decode (the input is the outcome of the external decoder), extract, filter
(a rejected record returns with the worksheet and table untouched), map
columns, append. -/
def excelExporter (filter_map : List (String × FilterVal))
    (column_map : List (String × String)) (input : Except Err ActivityRecord)
    (ws : Worksheet) (tbl : Table) : Except Err (Worksheet × Table) :=
  match input with
  | .error e => .error e
  | .ok r =>
    let key_info := extract r
    match passFilters filter_map key_info with
    | .error e => .error e
    | .ok false => .ok (ws, tbl)
    | .ok true =>
      match buildRowValues column_map key_info with
      | .error e => .error e
      | .ok rv => appendTV ws tbl rv

/-- The per-record loop of `export_activities_to_excel`'s inner function:
process each activity in sequence, threading the in-memory worksheet and
table; the first raised error aborts the loop. -/
def runBatch (filter_map : List (String × FilterVal))
    (column_map : List (String × String)) :
    List (Except Err ActivityRecord) → Worksheet → Table →
    Except Err (Worksheet × Table)
  | [], ws, tbl => .ok (ws, tbl)
  | a :: rest, ws, tbl =>
    match excelExporter filter_map column_map a ws tbl with
    | .error e => .error e
    | .ok (ws', tbl') => runBatch filter_map column_map rest ws' tbl'

/-- Embedding of `wb[self.ws_name]` with the `KeyError` re-raise. -/
def lookupSheet (wb : Workbook) (name : String) : Except Err Worksheet :=
  match wb.sheets.lookup name with
  | some ws => .ok ws
  | none => .error (.keySheetNotFound name)

/-- Embedding of `ws.tables.get(self.tbl_name)` plus the `None` check. -/
def lookupTable (ws : Worksheet) (name : String) : Except Err Table :=
  match ws.tables.lookup name with
  | some t => .ok t
  | none => .error (.keyTableNotFound name)

/-- Saving the workbook: the mutated worksheet (with the mutated table
re-installed under its name) replaces the entry under `ws_name`. -/
def saveWorkbook (wb : Workbook) (ws_name tbl_name : String)
    (ws' : Worksheet) (tbl' : Table) : Workbook :=
  { sheets := wb.sheets.map (fun p =>
      if p.1 = ws_name then
        (p.1, { ws' with tables := ws'.tables.map (fun q =>
          if q.1 = tbl_name then (q.1, tbl') else q) })
      else p) }

/-- Embedding of `export_activities_to_excel` composed with
`_export_excel_wrapper`: load the on-disk workbook, resolve the sheet and
the table, run the batch, and save only when no error was raised; on any
raised error the `finally` block closes the workbook without saving, so
the on-disk workbook is returned unchanged together with the error. -/
def export_activities_to_excel (disk : Workbook) (ws_name tbl_name : String)
    (filter_map : List (String × FilterVal))
    (column_map : List (String × String))
    (inputs : List (Except Err ActivityRecord)) : Workbook × Option Err :=
  match lookupSheet disk ws_name with
  | .error e => (disk, some e)
  | .ok ws =>
    match lookupTable ws tbl_name with
    | .error e => (disk, some e)
    | .ok tbl =>
      match runBatch filter_map column_map inputs ws tbl with
      | .error e => (disk, some e)
      | .ok (ws', tbl') => (saveWorkbook disk ws_name tbl_name ws' tbl', none)

/- ## Concrete instances used in examples -/

/-- An empty worksheet. -/
def wsEmpty : Worksheet :=
  { cellVal := fun _ => none, cellStyle := fun _ => none, heap := [],
    rowHeight := fun _ => none, tables := [] }

/-- A one-column table with a totals row. -/
def tblTotals : Table :=
  { cols := ["Date"], ref := "A1:A2", totalsRowShown := true }

/-- Modelled from the spec: the value conversion as claim C6 words it, with
the "same fixed-offset normalization" (convert to UTC+1, then strip the
timezone) applied to zoned times of day as well as zoned timestamps. Kept
separate for comparison with the code's `excel_safe_datetime`. -/
def excel_safe_datetime_claimC6 : Value → Value
  | .dt clock (some off) => .dt (clock - off + CET) none
  | .tod clock (some off) => .tod (clock - off + CET) none
  | v => v

/-- A one-column table `A1:A2` without a totals row. -/
def tblOne : Table :=
  { cols := ["Date"], ref := "A1:A2", totalsRowShown := false }

/-- A worksheet whose cell `(3, 1)` already holds a value. -/
def wsRow3 : Worksheet :=
  { wsEmpty with cellVal := fun p => if p = (3, 1) then some (.int 5) else none }

/-- The activity record of a FIT file decoding to an empty mapping. -/
def recEmpty : ActivityRecord := { fit := [] }

/-- A worksheet carrying `tblOne` under the table name `"T"`. -/
def wsW : Worksheet := { wsEmpty with tables := [("T", tblOne)] }

/-- A workbook with the single sheet `"S"` holding `wsW`. -/
def wbW : Workbook := { sheets := [("S", wsW)] }

/-- A two-column table `A1:B2` (header row 1, one data row) without a
totals row. -/
def tblTwo : Table :=
  { cols := ["Date", "Load"], ref := "A1:B2", totalsRowShown := false }

/-- Row values for `tblTwo`: a zoned timestamp and a number. -/
def rvW : List (String × Option Value) :=
  [("Date", some (.dt 600 (some 0))), ("Load", some (.int 7))]

/-- A worksheet whose data-row cell `(2, 2)` holds the formula `"=A2*2"`. -/
def wsF : Worksheet :=
  { wsEmpty with cellVal := fun p =>
    if p = (2, 2) then some (.str "=A2*2") else none }

/-- Row values naming the `"Load"` column but supplying `None`. -/
def rvNone : List (String × Option Value) := [("Load", none)]

/-- A worksheet whose data-row cell `(2, 2)` carries a style: heap address
0 with payload 42. -/
def wsSty : Worksheet :=
  { wsEmpty with
    cellStyle := fun p => if p = (2, 2) then some 0 else none,
    heap := [42] }

/- ## Roundtrip lemmas for `make_ref` / `range_boundaries` -/

theorem colLettersAux_eq :
    ∀ n fuel fuel', n ≤ fuel → n ≤ fuel' →
      colLettersAux fuel n = colLettersAux fuel' n := by
  intro n
  induction n using Nat.strong_induction_on with
  | _ n ih =>
    intro fuel fuel' h h'
    cases n with
    | zero => cases fuel <;> cases fuel' <;> rfl
    | succ m =>
      cases fuel with
      | zero => omega
      | succ f =>
        cases fuel' with
        | zero => omega
        | succ f' =>
          show colLettersAux f (m / 26) ++ _ = colLettersAux f' (m / 26) ++ _
          have hle := Nat.div_le_self m 26
          rw [ih (m / 26) (by omega) f f' (by omega) (by omega)]

theorem colLetters_eq (n : Nat) :
    colLetters n = if n = 0 then []
      else colLetters ((n - 1) / 26) ++ [Char.ofNat (65 + (n - 1) % 26)] := by
  cases n with
  | zero => rfl
  | succ m =>
    rw [if_neg (Nat.succ_ne_zero m)]
    show colLettersAux m (m / 26) ++ _ = colLettersAux (m / 26) (m / 26) ++ _
    have hle := Nat.div_le_self m 26
    rw [colLettersAux_eq (m / 26) m (m / 26) (by omega) (Nat.le_refl _)]
    rfl

theorem digits10Aux_eq :
    ∀ n fuel fuel', n ≤ fuel → n ≤ fuel' →
      digits10Aux fuel n = digits10Aux fuel' n := by
  intro n
  induction n using Nat.strong_induction_on with
  | _ n ih =>
    intro fuel fuel' h h'
    cases fuel with
    | zero =>
      have hn : n = 0 := by omega
      subst hn
      cases fuel' with
      | zero => rfl
      | succ f' =>
        simp only [digits10Aux]
        rw [if_pos (by omega)]
    | succ f =>
      cases fuel' with
      | zero =>
        have hn : n = 0 := by omega
        subst hn
        simp only [digits10Aux]
        rw [if_pos (by omega)]
      | succ f' =>
        simp only [digits10Aux]
        by_cases h10 : n < 10
        · rw [if_pos h10, if_pos h10]
        · rw [if_neg h10, if_neg h10]
          have hlt : n / 10 < n := Nat.div_lt_self (by omega) (by decide)
          rw [ih (n / 10) hlt f f' (by omega) (by omega)]

theorem digits10_eq (n : Nat) :
    digits10 n = if n < 10 then [Char.ofNat (48 + n)]
      else digits10 (n / 10) ++ [Char.ofNat (48 + n % 10)] := by
  cases n with
  | zero => rfl
  | succ m =>
    show digits10Aux (m + 1) (m + 1) = _
    simp only [digits10Aux]
    by_cases h10 : m + 1 < 10
    · rw [if_pos h10, if_pos h10]
    · rw [if_neg h10, if_neg h10]
      have hlt : (m + 1) / 10 < m + 1 := Nat.div_lt_self (by omega) (by decide)
      rw [digits10Aux_eq ((m + 1) / 10) m ((m + 1) / 10) (by omega) (Nat.le_refl _)]
      rfl

theorem char_upper_toNat (k : Nat) (h : k < 26) :
    (Char.ofNat (65 + k)).toNat = 65 + k := by
  interval_cases k <;> decide

theorem char_digit_toNat (k : Nat) (h : k < 10) :
    (Char.ofNat (48 + k)).toNat = 48 + k := by
  interval_cases k <;> decide

theorem colLetters_ne_nil (n : Nat) (h : n ≠ 0) : colLetters n ≠ [] := by
  rw [colLetters_eq]
  simp [h]

theorem digits10_ne_nil (n : Nat) : digits10 n ≠ [] := by
  rw [digits10_eq]
  split <;> simp

theorem mem_colLetters_toNat :
    ∀ n, ∀ c ∈ colLetters n, 65 ≤ c.toNat ∧ c.toNat ≤ 90 := by
  intro n
  induction n using Nat.strong_induction_on with
  | _ n ih =>
    intro c hc
    rw [colLetters_eq] at hc
    split at hc
    · simp at hc
    · rename_i h
      rw [List.mem_append] at hc
      rcases hc with h1 | h1
      · have hle := Nat.div_le_self (n - 1) 26
        exact ih _ (by omega) _ h1
      · simp only [List.mem_singleton] at h1
        subst h1
        have hr : (n - 1) % 26 < 26 := Nat.mod_lt _ (by decide)
        rw [char_upper_toNat _ hr]
        omega

theorem mem_digits10_toNat :
    ∀ n, ∀ c ∈ digits10 n, 48 ≤ c.toNat ∧ c.toNat ≤ 57 := by
  intro n
  induction n using Nat.strong_induction_on with
  | _ n ih =>
    intro c hc
    rw [digits10_eq] at hc
    split at hc
    · rename_i h
      simp only [List.mem_singleton] at hc
      subst hc
      rw [char_digit_toNat _ h]
      omega
    · rename_i h
      rw [List.mem_append] at hc
      rcases hc with h1 | h1
      · exact ih _ (Nat.div_lt_self (by omega) (by decide)) _ h1
      · simp only [List.mem_singleton] at h1
        subst h1
        have hr : n % 10 < 10 := Nat.mod_lt _ (by decide)
        rw [char_digit_toNat _ hr]
        omega

theorem all_upper_colLetters (n : Nat) : ∀ c ∈ colLetters n, isUpperAZ c = true := by
  intro c hc
  have := mem_colLetters_toNat n c hc
  simp only [isUpperAZ, Bool.and_eq_true, decide_eq_true_eq]
  omega

theorem all_digit_digits10 (n : Nat) : ∀ c ∈ digits10 n, isDigit09 c = true := by
  intro c hc
  have := mem_digits10_toNat n c hc
  simp only [isDigit09, Bool.and_eq_true, decide_eq_true_eq]
  omega

theorem digit_not_upper (c : Char) (h : isDigit09 c = true) : isUpperAZ c = false := by
  simp only [isDigit09, Bool.and_eq_true, decide_eq_true_eq] at h
  simp only [isUpperAZ, Bool.and_eq_false_iff, decide_eq_false_iff_not]
  omega

theorem lettersToNat_colLetters : ∀ n, lettersToNat (colLetters n) = n := by
  intro n
  induction n using Nat.strong_induction_on with
  | _ n ih =>
    rw [colLetters_eq]
    split
    · rename_i h
      subst h
      rfl
    · rename_i h
      have hle := Nat.div_le_self (n - 1) 26
      have hq := ih ((n - 1) / 26) (by omega)
      have hr : (n - 1) % 26 < 26 := Nat.mod_lt _ (by decide)
      unfold lettersToNat at hq ⊢
      rw [List.foldl_append, hq]
      simp only [List.foldl]
      rw [char_upper_toNat _ hr]
      have hdm := Nat.div_add_mod (n - 1) 26
      omega

theorem digitsToNat_digits10 : ∀ n, digitsToNat (digits10 n) = n := by
  intro n
  induction n using Nat.strong_induction_on with
  | _ n ih =>
    rw [digits10_eq]
    split
    · rename_i h
      unfold digitsToNat
      simp only [List.foldl]
      rw [char_digit_toNat _ h]
      omega
    · rename_i h
      have hq := ih (n / 10) (Nat.div_lt_self (by omega) (by decide))
      have hr : n % 10 < 10 := Nat.mod_lt _ (by decide)
      unfold digitsToNat at hq ⊢
      rw [List.foldl_append, hq]
      simp only [List.foldl]
      rw [char_digit_toNat _ hr]
      have hdm := Nat.div_add_mod n 10
      omega

theorem takeWhile_run (p : Char → Bool) (xs tail : List Char)
    (h1 : ∀ c ∈ xs, p c = true)
    (h2 : ∀ y, tail.head? = some y → p y = false) :
    (xs ++ tail).takeWhile p = xs ∧ (xs ++ tail).dropWhile p = tail := by
  constructor
  · rw [List.takeWhile_append_of_pos h1]
    cases tail with
    | nil => simp
    | cons y ys =>
      rw [List.takeWhile_cons, h2 y rfl]
      simp
  · rw [List.dropWhile_append_of_pos h1]
    cases tail with
    | nil => simp
    | cons y ys =>
      rw [List.dropWhile_cons, h2 y rfl]
      simp

theorem parseColRow_run (n m : Nat) (tail : List Char) (hn : n ≠ 0)
    (ht : ∀ y, tail.head? = some y → isDigit09 y = false) :
    parseColRow (colLetters n ++ (digits10 m ++ tail)) = some (n, m, tail) := by
  obtain ⟨d0, ds, hD⟩ := List.exists_cons_of_ne_nil (digits10_ne_nil m)
  obtain ⟨l0, ls, hL⟩ := List.exists_cons_of_ne_nil (colLetters_ne_nil n hn)
  have hheadD : ∀ y, (digits10 m ++ tail).head? = some y → isUpperAZ y = false := by
    intro y hy
    rw [hD] at hy
    simp only [List.cons_append, List.head?_cons, Option.some.injEq] at hy
    subst hy
    exact digit_not_upper _ (all_digit_digits10 m d0 (by rw [hD]; exact List.mem_cons_self _ _))
  have k1 := takeWhile_run isUpperAZ (colLetters n) (digits10 m ++ tail)
    (all_upper_colLetters n) hheadD
  have k2 := takeWhile_run isDigit09 (digits10 m) tail (all_digit_digits10 m) ht
  unfold parseColRow
  rw [k1.1, k1.2, k2.1, k2.2, hL, hD]
  show some (lettersToNat (l0 :: ls), digitsToNat (d0 :: ds), tail) = some (n, m, tail)
  rw [← hL, ← hD, lettersToNat_colLetters, digitsToNat_digits10]

theorem range_boundaries_make_ref (a b c d : Nat) (ha : a ≠ 0) (hc : c ≠ 0) :
    range_boundaries (make_ref a b c d) = some (a, b, c, d) := by
  unfold range_boundaries make_ref
  have h1 : parseColRow (colLetters a ++ (digits10 b ++
      (':' :: (colLetters c ++ digits10 d)))) =
      some (a, b, ':' :: (colLetters c ++ digits10 d)) := by
    apply parseColRow_run _ _ _ ha
    intro y hy
    simp only [List.head?_cons, Option.some.injEq] at hy
    subst hy
    decide
  have h2 : parseColRow (colLetters c ++ (digits10 d ++ ([] : List Char))) =
      some (c, d, []) := by
    apply parseColRow_run _ _ _ hc
    intro y hy
    simp at hy
  rw [List.append_nil] at h2
  dsimp only
  simp only [List.append_assoc]
  rw [h1]
  show (match parseColRow (colLetters c ++ digits10 d) with
    | some (c2, r2, []) => some (a, b, c2, r2)
    | _ => none) = some (a, b, c, d)
  rw [h2]

/- ## Claim C6: value conversion by the Row Appender -/

/-- C6 counterexample: the claim says a timezone-aware time-of-day value is
passed through the same fixed-offset normalization as timestamps (convert
to UTC+1, then strip). The code (`utils.excel_safe_datetime`) only strips
the tzinfo of a `time` without converting: a `time` of 10:00 at offset
UTC+0 stays 10:00 naive, while the claimed normalization would yield 11:00
naive. -/
theorem c6_counterexample :
    excel_safe_datetime (.tod 600 (some 0)) = .tod 600 none ∧
    excel_safe_datetime_claimC6 (.tod 600 (some 0)) = .tod 660 none ∧
    excel_safe_datetime (.tod 600 (some 0)) ≠
      excel_safe_datetime_claimC6 (.tod 600 (some 0)) := by
  refine ⟨rfl, rfl, ?_⟩
  decide

/-- C6 (amended): for every value written by the Row Appender, a
timezone-aware timestamp is converted to the fixed reference offset UTC+1
and then stripped of its timezone, yielding a naive timestamp equal to its
UTC+1 local clock reading; a timezone-aware time-of-day value has its
timezone stripped without altering its clock reading; a value that is
already naive (or not a timestamp/time at all) passes through unchanged;
and the conversion applied by the Row Appender (`convertVal`, step 4 of
`append_table_values`) agrees with `excel_safe_datetime` on every value. -/
theorem c6_value_conversion :
    (∀ clock off, excel_safe_datetime (.dt clock (some off)) =
      .dt (clock - off + 60) none) ∧
    (∀ clock off, excel_safe_datetime (.tod clock (some off)) =
      .tod clock none) ∧
    (∀ clock, excel_safe_datetime (.dt clock none) = .dt clock none) ∧
    (∀ clock, excel_safe_datetime (.tod clock none) = .tod clock none) ∧
    (∀ s, excel_safe_datetime (.str s) = .str s) ∧
    (∀ n, excel_safe_datetime (.int n) = .int n) ∧
    (∀ v, convertVal v = excel_safe_datetime v) := by
  refine ⟨fun _ _ => rfl, fun _ _ => rfl, fun _ => rfl, fun _ => rfl,
    fun _ => rfl, fun _ => rfl, ?_⟩
  intro v
  cases v with
  | str s => rfl
  | int n => rfl
  | dt c tz => rfl
  | tod c tz => rfl

/- ## Claim C7: totals-row tables are always rejected -/

/-- C7: appending to a table with `totalsRowShown = true` always fails with
the configuration error raised at step 1 of `append_table_values`
(`RuntimeError`, raised before anything is read or written), and the
worksheet and table coming out of the call are the untouched originals. -/
theorem c7_totals_row (ws : Worksheet) (tbl : Table)
    (rv : List (String × Option Value)) (h : tbl.totalsRowShown = true) :
    appendTV ws tbl rv = .error .runtimeTotalsRow ∧
    appendWS ws tbl rv = ws ∧ appendTbl ws tbl rv = tbl := by
  have h1 : appendTV ws tbl rv = .error .runtimeTotalsRow := by
    unfold appendTV
    rw [h]
    rfl
  refine ⟨h1, ?_, ?_⟩
  · unfold appendWS
    rw [h1]
  · unfold appendTbl
    rw [h1]

/-- C7 witness: a concrete totals-row table is rejected. -/
theorem c7_totals_row_witness :
    tblTotals.totalsRowShown = true ∧
    appendTV wsEmpty tblTotals [("Date", some (.int 1))] =
      .error .runtimeTotalsRow :=
  ⟨rfl, (c7_totals_row wsEmpty tblTotals [("Date", some (.int 1))] rfl).1⟩

/- ## Inversion of the `append_table_values` checks -/

/-- When the totals-row check passes, the ref parses and every row-value
key is a table column, `append_table_values` reduces to the emptiness check
on the prospective row followed by the mutation steps. -/
theorem appendTV_checks (ws : Worksheet) (tbl : Table)
    (rv : List (String × Option Value)) (mc mr xc xr : Nat)
    (ht : tbl.totalsRowShown = false)
    (hb : range_boundaries tbl.ref = some (mc, mr, xc, xr))
    (hk : ∀ k ∈ rv.map Prod.fst, tbl.cols.contains k = true) :
    appendTV ws tbl rv =
      if (colRangeList mc xc).any
          (fun c => (ws.cellVal (xr + 1, c)).isSome) then
        .error (.valueRowNotEmpty (xr + 1))
      else
        .ok (fixupRow mc mr xc xr (xr + 1)
            (writeRowValues mc (xr + 1) tbl.cols rv ws),
          { tbl with ref := make_ref mc mr xc (xr + 1) }) := by
  have hf : ((rv.map Prod.fst).filter
      (fun k => !(tbl.cols.contains k))).dedup = [] := by
    have : (rv.map Prod.fst).filter (fun k => !(tbl.cols.contains k)) = [] := by
      apply List.filter_eq_nil_iff.mpr
      intro a ha
      rw [hk a ha]
      simp
    rw [this]
    rfl
  simp only [appendTV, ht, hb, hf]
  simp

/- ## Claim C2: non-empty prospective row -/

/-- C2 counterexample: the claim quantifies over every table, but when the
table also has a totals row the call fails with the step-1 configuration
error (`RuntimeError`), not the safety-violation error (`ValueError` for a
non-empty prospective row), even though a cell of the prospective new row
(row 3 here) is non-empty. -/
theorem c2_counterexample :
    (wsRow3.cellVal (3, 1)).isSome = true ∧
    range_boundaries tblTotals.ref = some (1, 1, 1, 2) ∧
    appendTV wsRow3 tblTotals [("Date", some (.int 1))] =
      .error .runtimeTotalsRow ∧
    Err.runtimeTotalsRow ≠ Err.valueRowNotEmpty 3 := by
  refine ⟨rfl, by decide, rfl, by decide⟩

/-- C2 (amended): provided the earlier validation stages pass (no totals
row, parsable ref, every row-value key among the table columns), a
non-empty cell anywhere in the prospective new row makes
`append_table_values` fail with the safety-violation `ValueError`, and the
worksheet and table coming out of the call are the untouched originals. -/
theorem c2_row_not_empty (ws : Worksheet) (tbl : Table)
    (rv : List (String × Option Value)) (mc mr xc xr : Nat)
    (ht : tbl.totalsRowShown = false)
    (hb : range_boundaries tbl.ref = some (mc, mr, xc, xr))
    (hk : ∀ k ∈ rv.map Prod.fst, tbl.cols.contains k = true)
    (hne : (colRangeList mc xc).any
      (fun c => (ws.cellVal (xr + 1, c)).isSome) = true) :
    appendTV ws tbl rv = .error (.valueRowNotEmpty (xr + 1)) ∧
    appendWS ws tbl rv = ws ∧ appendTbl ws tbl rv = tbl := by
  have h1 : appendTV ws tbl rv = .error (.valueRowNotEmpty (xr + 1)) := by
    rw [appendTV_checks ws tbl rv mc mr xc xr ht hb hk, hne]
    rfl
  refine ⟨h1, ?_, ?_⟩
  · unfold appendWS
    rw [h1]
  · unfold appendTbl
    rw [h1]

/-- C2 witness: with no totals row and a valid key, the occupied cell
`(3, 1)` of the prospective row triggers the safety error. -/
theorem c2_row_not_empty_witness :
    appendTV wsRow3 tblOne [("Date", some (.int 1))] =
      .error (.valueRowNotEmpty 3) :=
  (c2_row_not_empty wsRow3 tblOne [("Date", some (.int 1))] 1 1 1 2
    rfl (by decide) (by decide) (by decide)).1

/- ## Claim C8: the filter evaluator -/

/-- C8: a literal filter entry lets the record continue exactly when the
extracted value is present and equal; a predicate entry continues exactly
when the predicate applied to the raw (possibly absent) value returns
true; the first failing entry ends evaluation with `false` without looking
at the remaining entries (the result is independent of `rest`); a
predicate that raises propagates its error; and a record rejected by the
filters produces `ok` with the worksheet and table untouched, so no row is
appended for it. -/
theorem c8_filter_evaluator :
    (∀ (k : String) (v : Option Value) rest ki,
      ((((ki.lookup k).join).isSome = true ∧ (ki.lookup k).join = v) →
        passFilters ((k, .lit v) :: rest) ki = passFilters rest ki) ∧
      (¬(((ki.lookup k).join).isSome = true ∧ (ki.lookup k).join = v) →
        passFilters ((k, .lit v) :: rest) ki = .ok false)) ∧
    (∀ (k : String) (f : Option Value → Except Err Bool) rest ki,
      (f ((ki.lookup k).join) = .ok true →
        passFilters ((k, .pred f) :: rest) ki = passFilters rest ki) ∧
      (f ((ki.lookup k).join) = .ok false →
        passFilters ((k, .pred f) :: rest) ki = .ok false) ∧
      (∀ e, f ((ki.lookup k).join) = .error e →
        passFilters ((k, .pred f) :: rest) ki = .error e)) ∧
    (∀ fm cm r ws tbl, passFilters fm (extract r) = .ok false →
      excelExporter fm cm (.ok r) ws tbl = .ok (ws, tbl)) := by
  refine ⟨?_, ?_, ?_⟩
  · intro k v rest ki
    constructor
    · intro h
      simp only [passFilters]
      rw [if_pos h]
    · intro h
      simp only [passFilters]
      rw [if_neg h]
  · intro k f rest ki
    refine ⟨?_, ?_, ?_⟩
    · intro h
      simp only [passFilters]
      rw [h]
      rfl
    · intro h
      simp only [passFilters]
      rw [h]
      rfl
    · intro e h
      simp only [passFilters]
      rw [h]
  · intro fm cm r ws tbl h
    simp only [excelExporter]
    rw [h]

/-- C8 witness: a concrete record whose sport does not match a literal
filter is rejected and appends nothing. -/
theorem c8_filter_evaluator_witness :
    passFilters [("wrk_sport", .lit (some (.str "cycling")))]
      (extract recEmpty) = .ok false ∧
    excelExporter [("wrk_sport", .lit (some (.str "cycling")))]
      [("wrk_sport", "Sport")] (.ok recEmpty) wsEmpty tblOne =
      .ok (wsEmpty, tblOne) := by
  have h : passFilters [("wrk_sport", .lit (some (.str "cycling")))]
      (extract recEmpty) = .ok false := by
    have := (c8_filter_evaluator.1 "wrk_sport" (some (.str "cycling")) []
      (extract recEmpty)).2
    exact this (by decide)
  exact ⟨h, c8_filter_evaluator.2.2 _ _ recEmpty wsEmpty tblOne h⟩

/- ## Claim C9: the field extractor -/

/-- C9: for every decoded activity record, `extract` returns a mapping with
exactly the fixed field set (it is total, so it never raises); each field
is resolved independently from the first session / workout message, and
upstream data missing at any level (the whole message list here; a single
field via the `lookup` characterizations) yields `None` for the affected
fields rather than an error. -/
theorem c9_extractor (r : ActivityRecord) :
    ((extract r).map Prod.fst = FIELDS) ∧
    ((extract r).lookup "wrk_sport" =
      some ((extractInfoDict r.fit "session_mesgs").lookup "sport")) ∧
    ((extract r).lookup "wrk_name" =
      some ((extractInfoDict r.fit "workout_mesgs").lookup "wkt_name")) ∧
    ((extract r).lookup "wrk_length" =
      some ((extractInfoDict r.fit "session_mesgs").lookup "total_distance")) ∧
    ((extract r).lookup "wrk_load" =
      some ((extractInfoDict r.fit "session_mesgs").lookup
        "training_load_peak")) ∧
    (r.fit.lookup "session_mesgs" = none →
      (extract r).lookup "wrk_sport" = some none ∧
      (extract r).lookup "wrk_start_time" = some none ∧
      (extract r).lookup "wrk_length" = some none ∧
      (extract r).lookup "wrk_load" = some none) ∧
    (r.fit.lookup "workout_mesgs" = none →
      (extract r).lookup "wrk_name" = some none) := by
  refine ⟨rfl, rfl, rfl, rfl, rfl, ?_, ?_⟩
  · intro h
    have hs : extractInfoDict r.fit "session_mesgs" = [] := by
      unfold extractInfoDict
      rw [h]
    refine ⟨?_, ?_, ?_, ?_⟩ <;> simp [extract, hs, List.lookup]
  · intro h
    have hw : extractInfoDict r.fit "workout_mesgs" = [] := by
      unfold extractInfoDict
      rw [h]
    simp [extract, hw, List.lookup]

/-- C9 witness: on a record with nothing decoded, every field is present
with value `None`. -/
theorem c9_extractor_witness :
    (extract recEmpty).map Prod.fst = FIELDS ∧
    (extract recEmpty).lookup "wrk_sport" = some none ∧
    (extract recEmpty).lookup "wrk_name" = some none :=
  ⟨(c9_extractor recEmpty).1,
   ((c9_extractor recEmpty).2.2.2.2.2.1 rfl).1,
   (c9_extractor recEmpty).2.2.2.2.2.2 rfl⟩

/- ## Batch coordinator lemmas -/

/-- The per-record loop splits over list concatenation: the tail runs from
the state the prefix produced, and a prefix error short-circuits. -/
theorem runBatch_append (fm : List (String × FilterVal))
    (cm : List (String × String))
    (pre rest : List (Except Err ActivityRecord)) :
    ∀ ws tbl, runBatch fm cm (pre ++ rest) ws tbl =
      match runBatch fm cm pre ws tbl with
      | .ok (w, t) => runBatch fm cm rest w t
      | .error e => .error e := by
  induction pre with
  | nil =>
    intro ws tbl
    rfl
  | cons a l ih =>
    intro ws tbl
    simp only [List.cons_append, runBatch]
    cases hx : excelExporter fm cm a ws tbl with
    | error e => rfl
    | ok p =>
      obtain ⟨w, t⟩ := p
      exact ih w t

/-- A record rejected by the filters leaves the worksheet and table
untouched and raises nothing. -/
theorem excelExporter_reject (fm : List (String × FilterVal))
    (cm : List (String × String)) (r : ActivityRecord)
    (ws : Worksheet) (tbl : Table)
    (h : passFilters fm (extract r) = .ok false) :
    excelExporter fm cm (.ok r) ws tbl = .ok (ws, tbl) := by
  simp only [excelExporter]
  rw [h]

/- ## Claim C1: batch atomicity -/

/-- C1: whenever the batch call reports an error — a failed sheet/table
lookup, or any record raising at any stage (decoding, a raising predicate,
column mapping, validation, writing) — the on-disk workbook is returned
unchanged (the `finally` block closes without saving); a record error
after a successful prefix aborts immediately, so the records after it are
never processed and the result does not depend on them; and the document
is saved (with the batch's final worksheet and table) exactly when every
record completed without raising. -/
theorem c1_batch_atomicity :
    (∀ disk wsn tbn fm cm inputs e,
      (export_activities_to_excel disk wsn tbn fm cm inputs).2 = some e →
      (export_activities_to_excel disk wsn tbn fm cm inputs).1 = disk) ∧
    (∀ disk wsn tbn fm cm pre x post ws tbl ws1 tbl1 e,
      lookupSheet disk wsn = .ok ws →
      lookupTable ws tbn = .ok tbl →
      runBatch fm cm pre ws tbl = .ok (ws1, tbl1) →
      excelExporter fm cm x ws1 tbl1 = .error e →
      export_activities_to_excel disk wsn tbn fm cm (pre ++ x :: post) =
        (disk, some e)) ∧
    (∀ disk wsn tbn fm cm inputs ws tbl ws' tbl',
      lookupSheet disk wsn = .ok ws →
      lookupTable ws tbn = .ok tbl →
      runBatch fm cm inputs ws tbl = .ok (ws', tbl') →
      export_activities_to_excel disk wsn tbn fm cm inputs =
        (saveWorkbook disk wsn tbn ws' tbl', none)) := by
  refine ⟨?_, ?_, ?_⟩
  · intro disk wsn tbn fm cm inputs e h
    unfold export_activities_to_excel at h ⊢
    cases h1 : lookupSheet disk wsn with
    | error e1 => rfl
    | ok ws =>
      rw [h1] at h
      dsimp only at h ⊢
      cases h2 : lookupTable ws tbn with
      | error e2 => rfl
      | ok tbl =>
        rw [h2] at h
        dsimp only at h ⊢
        cases h3 : runBatch fm cm inputs ws tbl with
        | error e3 => rfl
        | ok p =>
          obtain ⟨ws', tbl'⟩ := p
          rw [h3] at h
          simp at h
  · intro disk wsn tbn fm cm pre x post ws tbl ws1 tbl1 e h1 h2 h3 h4
    unfold export_activities_to_excel
    rw [h1]
    dsimp only
    rw [h2]
    dsimp only
    rw [runBatch_append, h3]
    dsimp only
    simp only [runBatch]
    rw [h4]
  · intro disk wsn tbn fm cm inputs ws tbl ws' tbl' h1 h2 h3
    unfold export_activities_to_excel
    rw [h1]
    dsimp only
    rw [h2]
    dsimp only
    rw [h3]

/- ## Claim C10: filter rejection does not abort the batch -/

/-- C10: a record rejected by the filter evaluator raises nothing and
appends nothing — the per-record pipeline returns with the worksheet and
table untouched — and the whole batch behaves exactly as if the rejected
record were not in it: the remaining records are processed and the
workbook is saved under the same conditions, persisting the rows of the
non-rejected records. -/
theorem c10_filter_reject_continues :
    (∀ fm cm r ws tbl, passFilters fm (extract r) = .ok false →
      excelExporter fm cm (.ok r) ws tbl = .ok (ws, tbl)) ∧
    (∀ disk wsn tbn fm cm pre post r,
      passFilters fm (extract r) = .ok false →
      export_activities_to_excel disk wsn tbn fm cm (pre ++ .ok r :: post) =
        export_activities_to_excel disk wsn tbn fm cm (pre ++ post)) := by
  constructor
  · intro fm cm r ws tbl h
    exact excelExporter_reject fm cm r ws tbl h
  · intro disk wsn tbn fm cm pre post r h
    have key : ∀ ws tbl, runBatch fm cm (pre ++ .ok r :: post) ws tbl =
        runBatch fm cm (pre ++ post) ws tbl := by
      intro ws tbl
      rw [runBatch_append, runBatch_append]
      cases hp : runBatch fm cm pre ws tbl with
      | error e => rfl
      | ok p =>
        obtain ⟨w1, t1⟩ := p
        dsimp only
        simp only [runBatch, excelExporter_reject fm cm r w1 t1 h]
    unfold export_activities_to_excel
    cases h1 : lookupSheet disk wsn with
    | error e => rfl
    | ok ws =>
      dsimp only
      cases h2 : lookupTable ws tbn with
      | error e => rfl
      | ok tbl =>
        dsimp only
        rw [key]

/-- C1 witness: a batch whose only record fails to decode leaves the
workbook exactly as it was, reporting the decoder's error. -/
theorem c1_batch_atomicity_witness :
    export_activities_to_excel wbW "S" "T" [] []
      [.error (.decodeError "bad")] = (wbW, some (.decodeError "bad")) :=
  c1_batch_atomicity.2.1 wbW "S" "T" [] [] [] (.error (.decodeError "bad"))
    [] wsW tblOne wsW tblOne (.decodeError "bad") rfl rfl rfl rfl

/-- C10 witness: a batch containing one filter-rejected record exports
exactly like the batch without it. -/
theorem c10_filter_reject_continues_witness :
    export_activities_to_excel wbW "S" "T"
      [("wrk_sport", .lit (some (.str "cycling")))] [] [.ok recEmpty] =
      export_activities_to_excel wbW "S" "T"
        [("wrk_sport", .lit (some (.str "cycling")))] [] [] :=
  c10_filter_reject_continues.2 wbW "S" "T"
    [("wrk_sport", .lit (some (.str "cycling")))] [] [] [] recEmpty rfl

/- ## Heap access helpers -/

theorem getD_append_len (l : List Nat) (x : Nat) :
    (l ++ [x]).getD l.length 0 = x := by
  simp [List.getD, List.get?_eq_getElem?, List.getElem?_append_right]

theorem getD_set_ne (l : List Nat) (i j s : Nat) (h : i ≠ j) :
    (l.set i s).getD j 0 = l.getD j 0 := by
  simp [List.getD, List.get?_eq_getElem?, List.getElem?_set_ne h]

/- ## Frame and action lemmas for the step 5 column loop -/

theorem styleCopyCol_cellVal (m ri : Nat) (w : Worksheet) (ci : Nat) :
    (styleCopyCol m ri w ci).cellVal = w.cellVal := by
  unfold styleCopyCol
  cases w.cellStyle (m, ci) <;> rfl

theorem styleCopyCol_rowHeight (m ri : Nat) (w : Worksheet) (ci : Nat) :
    (styleCopyCol m ri w ci).rowHeight = w.rowHeight := by
  unfold styleCopyCol
  cases w.cellStyle (m, ci) <;> rfl

theorem styleCopyCol_cellStyle_frame (m ri : Nat) (w : Worksheet) (ci : Nat)
    (q : Nat × Nat) (h : q ≠ (ri, ci)) :
    (styleCopyCol m ri w ci).cellStyle q = w.cellStyle q := by
  unfold styleCopyCol
  cases w.cellStyle (m, ci) with
  | none => rfl
  | some a =>
    dsimp only
    rw [if_neg h]

theorem styleCopyCol_heap_ext (m ri : Nat) (w : Worksheet) (ci : Nat) :
    ∃ t, (styleCopyCol m ri w ci).heap = w.heap ++ t := by
  unfold styleCopyCol
  cases w.cellStyle (m, ci) with
  | none => exact ⟨[], by simp⟩
  | some a => exact ⟨[w.heap.getD a 0], rfl⟩

theorem styleCopyCol_action (m ri : Nat) (w : Worksheet) (ci : Nat) (a : Nat)
    (h : w.cellStyle (m, ci) = some a) :
    (styleCopyCol m ri w ci).cellStyle (ri, ci) = some w.heap.length ∧
    (styleCopyCol m ri w ci).heap = w.heap ++ [w.heap.getD a 0] := by
  unfold styleCopyCol
  rw [h]
  constructor
  · dsimp only
    rw [if_pos rfl]
  · rfl

theorem formulaCol_cellStyle (m ri : Nat) (w : Worksheet) (ci : Nat) :
    (formulaCol m ri w ci).cellStyle = w.cellStyle ∧
    (formulaCol m ri w ci).heap = w.heap ∧
    (formulaCol m ri w ci).rowHeight = w.rowHeight := by
  unfold formulaCol
  cases w.cellVal (m, ci) with
  | none => exact ⟨rfl, rfl, rfl⟩
  | some v =>
    cases v with
    | str s =>
      dsimp only
      by_cases hc : w.cellVal (ri, ci) = none ∧ startsWithEq s = true
      · rw [if_pos hc]
        exact ⟨rfl, rfl, rfl⟩
      · rw [if_neg hc]
        exact ⟨rfl, rfl, rfl⟩
    | int n => exact ⟨rfl, rfl, rfl⟩
    | dt c tz => exact ⟨rfl, rfl, rfl⟩
    | tod c tz => exact ⟨rfl, rfl, rfl⟩

theorem formulaCol_cellVal_frame (m ri : Nat) (w : Worksheet) (ci : Nat)
    (q : Nat × Nat) (h : q ≠ (ri, ci)) :
    (formulaCol m ri w ci).cellVal q = w.cellVal q := by
  unfold formulaCol
  cases w.cellVal (m, ci) with
  | none => rfl
  | some v =>
    cases v with
    | str s =>
      dsimp only
      by_cases hc : w.cellVal (ri, ci) = none ∧ startsWithEq s = true
      · rw [if_pos hc]
        dsimp only
        rw [if_neg h]
      · rw [if_neg hc]
    | int n => rfl
    | dt c tz => rfl
    | tod c tz => rfl

theorem formulaCol_action (m ri : Nat) (w : Worksheet) (ci : Nat) :
    (formulaCol m ri w ci).cellVal (ri, ci) =
      formulaFill (w.cellVal (m, ci)) (w.cellVal (ri, ci)) (ri - m) := by
  unfold formulaCol formulaFill
  cases w.cellVal (m, ci) with
  | none => rfl
  | some v =>
    cases v with
    | str s =>
      dsimp only
      by_cases hc : w.cellVal (ri, ci) = none ∧ startsWithEq s = true
      · rw [if_pos hc, if_pos hc]
        dsimp only
        rw [if_pos rfl]
      · rw [if_neg hc, if_neg hc]
    | int n => rfl
    | dt c tz => rfl
    | tod c tz => rfl

theorem fixupCol_cellVal_frame (m ri : Nat) (w : Worksheet) (ci : Nat)
    (q : Nat × Nat) (h : q ≠ (ri, ci)) :
    (fixupCol m ri w ci).cellVal q = w.cellVal q := by
  unfold fixupCol
  rw [formulaCol_cellVal_frame m ri (styleCopyCol m ri w ci) ci q h,
    styleCopyCol_cellVal]

theorem fixupCol_cellStyle_frame (m ri : Nat) (w : Worksheet) (ci : Nat)
    (q : Nat × Nat) (h : q ≠ (ri, ci)) :
    (fixupCol m ri w ci).cellStyle q = w.cellStyle q := by
  unfold fixupCol
  rw [(formulaCol_cellStyle m ri (styleCopyCol m ri w ci) ci).1,
    styleCopyCol_cellStyle_frame m ri w ci q h]

theorem fixupCol_heap_ext (m ri : Nat) (w : Worksheet) (ci : Nat) :
    ∃ t, (fixupCol m ri w ci).heap = w.heap ++ t := by
  unfold fixupCol
  rw [(formulaCol_cellStyle m ri (styleCopyCol m ri w ci) ci).2.1]
  exact styleCopyCol_heap_ext m ri w ci

theorem fixupCol_cellVal_target (m ri : Nat) (w : Worksheet) (ci : Nat) :
    (fixupCol m ri w ci).cellVal (ri, ci) =
      formulaFill (w.cellVal (m, ci)) (w.cellVal (ri, ci)) (ri - m) := by
  unfold fixupCol
  rw [formulaCol_action, styleCopyCol_cellVal]

theorem fixupCol_style_action (m ri : Nat) (w : Worksheet) (ci : Nat)
    (a : Nat) (h : w.cellStyle (m, ci) = some a) :
    (fixupCol m ri w ci).cellStyle (ri, ci) = some w.heap.length ∧
    (fixupCol m ri w ci).heap = w.heap ++ [w.heap.getD a 0] := by
  have hs := styleCopyCol_action m ri w ci a h
  have hf := formulaCol_cellStyle m ri (styleCopyCol m ri w ci) ci
  constructor
  · unfold fixupCol
    rw [hf.1, hs.1]
  · unfold fixupCol
    rw [hf.2.1, hs.2]

/- ## Lemmas for the fold of `fixupCol` over the column range -/

theorem loopCols_cellVal_row_frame (m ri : Nat) (l : List Nat) :
    ∀ (w : Worksheet) (r c : Nat), r ≠ ri →
      (l.foldl (fixupCol m ri) w).cellVal (r, c) = w.cellVal (r, c) := by
  induction l with
  | nil =>
    intro w r c _
    rfl
  | cons x xs ih =>
    intro w r c h
    rw [List.foldl_cons, ih _ r c h,
      fixupCol_cellVal_frame m ri w x (r, c) (by intro hq; cases hq; exact h rfl)]

theorem loopCols_cellVal_col_frame (m ri : Nat) (l : List Nat) :
    ∀ (w : Worksheet) (r c : Nat), c ∉ l →
      (l.foldl (fixupCol m ri) w).cellVal (r, c) = w.cellVal (r, c) := by
  induction l with
  | nil =>
    intro w r c _
    rfl
  | cons x xs ih =>
    intro w r c h
    have hx : c ≠ x := fun hq => h (hq ▸ List.mem_cons_self x xs)
    have hxs : c ∉ xs := fun hq => h (List.mem_cons_of_mem x hq)
    rw [List.foldl_cons, ih _ r c hxs,
      fixupCol_cellVal_frame m ri w x (r, c) (by intro hq; cases hq; exact hx rfl)]

theorem loopCols_cellStyle_row_frame (m ri : Nat) (l : List Nat) :
    ∀ (w : Worksheet) (r c : Nat), r ≠ ri →
      (l.foldl (fixupCol m ri) w).cellStyle (r, c) = w.cellStyle (r, c) := by
  induction l with
  | nil =>
    intro w r c _
    rfl
  | cons x xs ih =>
    intro w r c h
    rw [List.foldl_cons, ih _ r c h,
      fixupCol_cellStyle_frame m ri w x (r, c) (by intro hq; cases hq; exact h rfl)]

theorem loopCols_cellStyle_col_frame (m ri : Nat) (l : List Nat) :
    ∀ (w : Worksheet) (r c : Nat), c ∉ l →
      (l.foldl (fixupCol m ri) w).cellStyle (r, c) = w.cellStyle (r, c) := by
  induction l with
  | nil =>
    intro w r c _
    rfl
  | cons x xs ih =>
    intro w r c h
    have hx : c ≠ x := fun hq => h (hq ▸ List.mem_cons_self x xs)
    have hxs : c ∉ xs := fun hq => h (List.mem_cons_of_mem x hq)
    rw [List.foldl_cons, ih _ r c hxs,
      fixupCol_cellStyle_frame m ri w x (r, c) (by intro hq; cases hq; exact hx rfl)]

theorem loopCols_heap_ext (m ri : Nat) (l : List Nat) :
    ∀ w : Worksheet, ∃ t, (l.foldl (fixupCol m ri) w).heap = w.heap ++ t := by
  induction l with
  | nil =>
    intro w
    exact ⟨[], by simp⟩
  | cons x xs ih =>
    intro w
    obtain ⟨t1, h1⟩ := fixupCol_heap_ext m ri w x
    obtain ⟨t2, h2⟩ := ih (fixupCol m ri w x)
    refine ⟨t1 ++ t2, ?_⟩
    rw [List.foldl_cons, h2, h1, List.append_assoc]

theorem loopCols_cellVal_target (m ri : Nat) (c : Nat) (l : List Nat) :
    ∀ w : Worksheet, l.Nodup → c ∈ l → m ≠ ri →
      (l.foldl (fixupCol m ri) w).cellVal (ri, c) =
        formulaFill (w.cellVal (m, c)) (w.cellVal (ri, c)) (ri - m) := by
  induction l with
  | nil =>
    intro w _ hc _
    cases hc
  | cons x xs ih =>
    intro w hl hc hm
    rw [List.foldl_cons]
    rcases List.mem_cons.mp hc with rfl | hx
    · have hnx : c ∉ xs := (List.nodup_cons.mp hl).1
      rw [loopCols_cellVal_col_frame m ri xs _ ri c hnx, fixupCol_cellVal_target]
    · have hxc : x ≠ c := by
        rintro rfl
        exact (List.nodup_cons.mp hl).1 hx
      rw [ih _ (List.nodup_cons.mp hl).2 hx hm,
        fixupCol_cellVal_frame m ri w x (m, c) (by intro hq; cases hq; exact hm rfl),
        fixupCol_cellVal_frame m ri w x (ri, c) (by intro hq; cases hq; exact hxc rfl)]

theorem loopCols_style_target (m ri : Nat) (c a : Nat) (l : List Nat) :
    ∀ w : Worksheet, l.Nodup → c ∈ l → m ≠ ri →
      w.cellStyle (m, c) = some a → a < w.heap.length →
      ∃ b, (l.foldl (fixupCol m ri) w).cellStyle (ri, c) = some b ∧
        a < b ∧ b < (l.foldl (fixupCol m ri) w).heap.length ∧
        (l.foldl (fixupCol m ri) w).heap.getD b 0 = w.heap.getD a 0 := by
  induction l with
  | nil =>
    intro w _ hc
    cases hc
  | cons x xs ih =>
    intro w hl hc hm hsty ha
    rw [List.foldl_cons]
    rcases List.mem_cons.mp hc with rfl | hx
    · have hnx : c ∉ xs := (List.nodup_cons.mp hl).1
      have hact := fixupCol_style_action m ri w c a hsty
      obtain ⟨t, ht⟩ := loopCols_heap_ext m ri xs (fixupCol m ri w c)
      refine ⟨w.heap.length, ?_, ha, ?_, ?_⟩
      · rw [loopCols_cellStyle_col_frame m ri xs _ ri c hnx, hact.1]
      · rw [ht, hact.2]
        simp
      · rw [ht, hact.2, List.getD_append _ _ 0 _ (by simp), getD_append_len]
    · have hxc : x ≠ c := by
        rintro rfl
        exact (List.nodup_cons.mp hl).1 hx
      obtain ⟨t1, ht1⟩ := fixupCol_heap_ext m ri w x
      have h1 : (fixupCol m ri w x).cellStyle (m, c) = some a := by
        rw [fixupCol_cellStyle_frame m ri w x (m, c)
          (by intro hq; cases hq; exact hm rfl), hsty]
      have h2 : a < (fixupCol m ri w x).heap.length := by
        rw [ht1]
        simp
        omega
      obtain ⟨b, hb1, hb2, hb3, hb4⟩ := ih (fixupCol m ri w x)
        (List.nodup_cons.mp hl).2 hx hm h1 h2
      refine ⟨b, hb1, hb2, hb3, ?_⟩
      rw [hb4, ht1, List.getD_append _ _ 0 _ ha]

/- ## The column-name-to-index dictionary -/

theorem enumFrom_filter_nil (k : String) :
    ∀ (cols : List String) (n : Nat), k ∉ cols →
      (List.enumFrom n cols).filter (fun p => p.2 = k) = [] := by
  intro cols
  induction cols with
  | nil =>
    intro n _
    rfl
  | cons c cs ih =>
    intro n h
    have hc : ¬(c = k) := fun hq => h (hq ▸ List.mem_cons_self c cs)
    have hcs : k ∉ cs := fun hq => h (List.mem_cons_of_mem c hq)
    rw [show List.enumFrom n (c :: cs) = (n, c) :: List.enumFrom (n + 1) cs
      from rfl, List.filter_cons, if_neg (by simp [hc])]
    exact ih (n + 1) hcs

theorem enumFrom_filter_getLast (k : String) :
    ∀ (cols : List String) (n : Nat), cols.Nodup → k ∈ cols →
      ((List.enumFrom n cols).filter (fun p => p.2 = k)).getLast?.map
        Prod.fst = some (n + cols.indexOf k) := by
  intro cols
  induction cols with
  | nil =>
    intro n _ hk
    cases hk
  | cons c cs ih =>
    intro n hn hk
    rw [show List.enumFrom n (c :: cs) = (n, c) :: List.enumFrom (n + 1) cs
      from rfl, List.filter_cons]
    by_cases hc : c = k
    · subst hc
      have hcs : c ∉ cs := (List.nodup_cons.mp hn).1
      rw [enumFrom_filter_nil c cs (n + 1) hcs]
      simp [List.indexOf_cons_self]
    · have hk' : k ∈ cs := by
        rcases List.mem_cons.mp hk with rfl | h
        · exact absurd rfl hc
        · exact h
      rw [if_neg (by simp [hc]), ih (n + 1) (List.nodup_cons.mp hn).2 hk',
        List.indexOf_cons_ne cs (fun hq => hc hq)]
      congr 1
      omega

/-- Under unique column names, the dict built by the comprehension maps a
member column name to its position in the header order. -/
theorem columnsMap_nodup (cols : List String) (k : String)
    (hn : cols.Nodup) (hk : k ∈ cols) :
    columnsMap cols k = some (cols.indexOf k) := by
  unfold columnsMap
  have := enumFrom_filter_getLast k cols 0 hn hk
  rw [show cols.enum = List.enumFrom 0 cols from rfl, this]
  simp

/- ## Lemmas for step 4 (`writeRowValues`) -/

theorem cellWrite_frame (w : Worksheet) (r c : Nat) (v : Option Value)
    (q : Nat × Nat) (h : q ≠ (r, c)) :
    (cellWrite w r c v).cellVal q = w.cellVal q := by
  unfold cellWrite
  cases v with
  | none => rfl
  | some x =>
    dsimp only
    rw [if_neg h]

theorem cellWrite_other (w : Worksheet) (r c : Nat) (v : Option Value) :
    (cellWrite w r c v).cellStyle = w.cellStyle ∧
    (cellWrite w r c v).heap = w.heap ∧
    (cellWrite w r c v).rowHeight = w.rowHeight := by
  unfold cellWrite
  cases v with
  | none => exact ⟨rfl, rfl, rfl⟩
  | some x => exact ⟨rfl, rfl, rfl⟩

theorem writeRowValues_row_frame (mc ri : Nat) (cols : List String) :
    ∀ (rv : List (String × Option Value)) (w : Worksheet) (r c : Nat),
      r ≠ ri →
      (writeRowValues mc ri cols rv w).cellVal (r, c) = w.cellVal (r, c) := by
  intro rv
  induction rv with
  | nil =>
    intro w r c _
    rfl
  | cons kv rest ih =>
    intro w r c h
    unfold writeRowValues
    rw [List.foldl_cons]
    show (writeRowValues mc ri cols rest _).cellVal (r, c) = w.cellVal (r, c)
    cases hi : columnsMap cols kv.1 with
    | none =>
      simp only [hi]
      exact ih w r c h
    | some i =>
      simp only [hi]
      rw [ih _ r c h,
        cellWrite_frame w ri (mc + i) _ (r, c) (by intro hq; cases hq; exact h rfl)]

theorem writeRowValues_other (mc ri : Nat) (cols : List String) :
    ∀ (rv : List (String × Option Value)) (w : Worksheet),
      (writeRowValues mc ri cols rv w).cellStyle = w.cellStyle ∧
      (writeRowValues mc ri cols rv w).heap = w.heap ∧
      (writeRowValues mc ri cols rv w).rowHeight = w.rowHeight := by
  intro rv
  induction rv with
  | nil =>
    intro w
    exact ⟨rfl, rfl, rfl⟩
  | cons kv rest ih =>
    intro w
    unfold writeRowValues
    rw [List.foldl_cons]
    show (writeRowValues mc ri cols rest _).cellStyle = w.cellStyle ∧ _ ∧ _
    cases hi : columnsMap cols kv.1 with
    | none =>
      simp only [hi]
      exact ih w
    | some i =>
      simp only [hi]
      have h1 := ih (cellWrite w ri (mc + i) (kv.2.map convertVal))
      have h2 := cellWrite_other w ri (mc + i) (kv.2.map convertVal)
      exact ⟨h1.1.trans h2.1, (h1.2.1).trans h2.2.1, (h1.2.2).trans h2.2.2⟩

theorem writeRowValues_col_frame (mc ri : Nat) (cols : List String) :
    ∀ (rv : List (String × Option Value)) (w : Worksheet) (cc : Nat),
      (∀ kv ∈ rv, ∀ i, columnsMap cols kv.1 = some i → mc + i ≠ cc) →
      (writeRowValues mc ri cols rv w).cellVal (ri, cc) = w.cellVal (ri, cc) := by
  intro rv
  induction rv with
  | nil =>
    intro w cc _
    rfl
  | cons kv rest ih =>
    intro w cc h
    unfold writeRowValues
    rw [List.foldl_cons]
    show (writeRowValues mc ri cols rest _).cellVal (ri, cc) = w.cellVal (ri, cc)
    have hrest : ∀ kv' ∈ rest, ∀ i, columnsMap cols kv'.1 = some i →
        mc + i ≠ cc := fun kv' hm => h kv' (List.mem_cons_of_mem kv hm)
    cases hi : columnsMap cols kv.1 with
    | none =>
      simp only [hi]
      exact ih w cc hrest
    | some i =>
      simp only [hi]
      rw [ih _ cc hrest,
        cellWrite_frame w ri (mc + i) _ (ri, cc)
          (by intro hq; cases hq; exact h kv (List.mem_cons_self kv rest) i hi rfl)]

theorem cellWrite_target_some (w : Worksheet) (r c : Nat) (x : Value) :
    (cellWrite w r c (some x)).cellVal (r, c) = some x := by
  unfold cellWrite
  dsimp only
  rw [if_pos rfl]

theorem writeRowValues_target (mc ri : Nat) (cols : List String)
    (k : String) (i : Nat) :
    ∀ (rv : List (String × Option Value)) (w : Worksheet) (v : Option Value),
      (rv.map Prod.fst).Nodup → (k, v) ∈ rv → columnsMap cols k = some i →
      (∀ k' i', k' ∈ rv.map Prod.fst → k' ≠ k →
        columnsMap cols k' = some i' → i' ≠ i) →
      (writeRowValues mc ri cols rv w).cellVal (ri, mc + i) =
        (match v with
         | some x => some (convertVal x)
         | none => w.cellVal (ri, mc + i)) := by
  intro rv
  induction rv with
  | nil =>
    intro w v _ hm
    cases hm
  | cons kv rest ih =>
    intro w v hn hm hci hinj
    unfold writeRowValues
    rw [List.foldl_cons]
    show (writeRowValues mc ri cols rest _).cellVal (ri, mc + i) = _
    rcases List.mem_cons.mp hm with heq | hmem
    · have hkv : kv = (k, v) := heq.symm
      subst hkv
      simp only [hci]
      have hn' : (k :: rest.map Prod.fst).Nodup := hn
      have hknotin : k ∉ rest.map Prod.fst := (List.nodup_cons.mp hn').1
      rw [writeRowValues_col_frame mc ri cols rest _ (mc + i) ?frame]
      case frame =>
        intro kv' hkv' i' hci'
        have hk' : kv'.1 ≠ k := by
          intro hq
          exact hknotin (hq ▸ List.mem_map_of_mem Prod.fst hkv')
        have := hinj kv'.1 i'
          (List.mem_cons_of_mem _ (List.mem_map_of_mem Prod.fst hkv')) hk' hci'
        omega
      cases v with
      | some x => exact cellWrite_target_some w ri (mc + i) (convertVal x)
      | none => rfl
    · have hn' : (kv.1 :: rest.map Prod.fst).Nodup := hn
      have hk1 : k ∈ rest.map Prod.fst := List.mem_map_of_mem Prod.fst hmem
      have hkv1 : kv.1 ≠ k := by
        intro hq
        exact (List.nodup_cons.mp hn').1 (by rw [hq]; exact hk1)
      have hnrest : (rest.map Prod.fst).Nodup := (List.nodup_cons.mp hn').2
      have hinjrest : ∀ k' i', k' ∈ rest.map Prod.fst → k' ≠ k →
          columnsMap cols k' = some i' → i' ≠ i :=
        fun k' i' hm' => hinj k' i' (List.mem_cons_of_mem _ hm')
      cases hci0 : columnsMap cols kv.1 with
      | none =>
        simp only [hci0]
        exact ih w v hnrest hmem hci hinjrest
      | some i0 =>
        have hne : i0 ≠ i := hinj kv.1 i0 (List.mem_map_of_mem Prod.fst
          (List.mem_cons_self kv rest)) hkv1 hci0
        simp only [hci0]
        rw [ih _ v hnrest hmem hci hinjrest]
        cases v with
        | some x => rfl
        | none =>
          refine cellWrite_frame w ri (mc + i0) _ (ri, mc + i) ?_
          intro hq
          have h2 : mc + i = mc + i0 := congrArg Prod.snd hq
          omega

/- ## Assembly lemmas for claims C3, C4 and C5 -/

theorem formulaFill_some (src : Option Value) (z : Value) (d : Nat) :
    formulaFill src (some z) d = some z := by
  unfold formulaFill
  cases src with
  | none => rfl
  | some v =>
    cases v with
    | str s =>
      dsimp only
      rw [if_neg]
      intro hq
      cases hq.1
    | int n => rfl
    | dt c tz => rfl
    | tod c tz => rfl

theorem loopCols_preserve_some (m ri : Nat) (l : List Nat) (hl : l.Nodup)
    (hm : m ≠ ri) (w : Worksheet) (c : Nat) (z : Value)
    (h : w.cellVal (ri, c) = some z) :
    (l.foldl (fixupCol m ri) w).cellVal (ri, c) = some z := by
  by_cases hc : c ∈ l
  · rw [loopCols_cellVal_target m ri c l w hl hc hm, h, formulaFill_some]
  · rw [loopCols_cellVal_col_frame m ri l w ri c hc, h]

/-- With at least one data row, step 5 is the column fold over the
row-height-updated worksheet; cell values, styles and the heap of that
intermediate worksheet coincide with the input's. -/
theorem fixupRow_eq_loop (mc mr xc xr ri : Nat) (w : Worksheet)
    (h : mr < xr) :
    fixupRow mc mr xc xr ri w = (colRangeList mc xc).foldl (fixupCol xr ri)
      { w with rowHeight := fun r =>
        if r = ri then w.rowHeight xr else w.rowHeight r } := by
  unfold fixupRow
  rw [if_pos h]

theorem fixupRow_skip (mc mr xc xr ri : Nat) (w : Worksheet)
    (h : ¬ mr < xr) : fixupRow mc mr xc xr ri w = w := by
  unfold fixupRow
  rw [if_neg h]

/- ## Positivity of parsed column bounds -/

theorem lettersToNat_fold_pos : ∀ (ls : List Char) (acc : Nat), 1 ≤ acc →
    1 ≤ ls.foldl (fun a c => a * 26 + (c.toNat - 64)) acc := by
  intro ls
  induction ls with
  | nil =>
    intro acc h
    exact h
  | cons c cs ih =>
    intro acc h
    rw [List.foldl_cons]
    exact ih _ (by omega)

theorem parseColRow_pos (cs : List Char) (x y : Nat) (rest : List Char)
    (h : parseColRow cs = some (x, y, rest)) : 1 ≤ x := by
  unfold parseColRow at h
  cases h1 : cs.takeWhile isUpperAZ with
  | nil =>
    rw [h1] at h
    cases h
  | cons l0 ls =>
    cases h2 : (cs.dropWhile isUpperAZ).takeWhile isDigit09 with
    | nil =>
      rw [h1, h2] at h
      cases h
    | cons d0 ds =>
      rw [h1, h2] at h
      have hx : lettersToNat (l0 :: ls) = x := by
        have := congrArg (fun o => (Option.map (fun q : Nat × Nat × List Char => q.1) o).getD 0) h
        simpa using this
      have hup : isUpperAZ l0 = true :=
        List.mem_takeWhile_imp (h1 ▸ List.mem_cons_self l0 ls)
      have h65 : 65 ≤ l0.toNat := by
        simp only [isUpperAZ, Bool.and_eq_true, decide_eq_true_eq] at hup
        omega
      rw [← hx]
      unfold lettersToNat
      rw [List.foldl_cons]
      exact lettersToNat_fold_pos ls _ (by omega)

theorem range_boundaries_pos (s : String) (a b c d : Nat)
    (h : range_boundaries s = some (a, b, c, d)) : 1 ≤ a ∧ 1 ≤ c := by
  unfold range_boundaries at h
  split at h
  · rename_i c1 r1 rest heq
    split at h
    · rename_i c2 r2 heq2
      simp only [Option.some.injEq, Prod.mk.injEq] at h
      obtain ⟨ha1, _, ha3, _⟩ := h
      exact ⟨ha1 ▸ parseColRow_pos s.data c1 r1 _ heq,
        ha3 ▸ parseColRow_pos rest c2 r2 _ heq2⟩
    · cases h
  · cases h

/- ## Claim C3: a successful append writes the converted values and grows
the range by one row -/

/-- C3: when all validation passes (no totals row, parsable ref, valid
keys, empty prospective row; unique table column names and unique row-value
keys, with every supplied value a present scalar), the append succeeds;
each destination column's converted value is written into the cell at row
`max_row + 1` and absolute column `min_col + index_of(column_name)`, where
`index_of` is the column's position in the header order; and the table's
range afterwards is exactly `(min_col, min_row, max_col, max_row + 1)`. -/
theorem c3_append_writes_and_grows (ws : Worksheet) (tbl : Table)
    (rv : List (String × Option Value)) (mc mr xc xr : Nat)
    (ht : tbl.totalsRowShown = false)
    (hb : range_boundaries tbl.ref = some (mc, mr, xc, xr))
    (hk : ∀ k ∈ rv.map Prod.fst, tbl.cols.contains k = true)
    (hemp : (colRangeList mc xc).any
      (fun c => (ws.cellVal (xr + 1, c)).isSome) = false)
    (hnc : tbl.cols.Nodup)
    (hnr : (rv.map Prod.fst).Nodup) :
    (appendTV ws tbl rv).isOk = true ∧
    (∀ k x, (k, some x) ∈ rv →
      (appendWS ws tbl rv).cellVal (xr + 1, mc + tbl.cols.indexOf k) =
        some (convertVal x)) ∧
    range_boundaries (appendTbl ws tbl rv).ref =
      some (mc, mr, xc, xr + 1) := by
  have h1 := appendTV_checks ws tbl rv mc mr xc xr ht hb hk
  rw [hemp, if_neg (show ¬(false = true) by simp)] at h1
  refine ⟨?_, ?_, ?_⟩
  · rw [h1]
    rfl
  · intro k x hm
    have hkmem : k ∈ tbl.cols :=
      List.mem_of_elem_eq_true (hk k (List.mem_map_of_mem Prod.fst hm))
    have hcm : columnsMap tbl.cols k = some (tbl.cols.indexOf k) :=
      columnsMap_nodup tbl.cols k hnc hkmem
    have hinj : ∀ k' i', k' ∈ rv.map Prod.fst → k' ≠ k →
        columnsMap tbl.cols k' = some i' → i' ≠ tbl.cols.indexOf k := by
      intro k' i' hm' hne hci'
      have hk'mem : k' ∈ tbl.cols := List.mem_of_elem_eq_true (hk k' hm')
      rw [columnsMap_nodup tbl.cols k' hnc hk'mem] at hci'
      injection hci' with hci'
      intro hEq
      exact hne ((List.indexOf_inj hk'mem hkmem).mp (hci'.trans hEq))
    have hws4 := writeRowValues_target mc (xr + 1) tbl.cols k
      (tbl.cols.indexOf k) rv ws (some x) hnr hm hcm hinj
    unfold appendWS
    rw [h1]
    by_cases hd : mr < xr
    · rw [fixupRow_eq_loop _ _ _ _ _ _ hd]
      exact loopCols_preserve_some xr (xr + 1) _ (List.nodup_range' ..)
        (by omega) _ _ _ hws4
    · rw [fixupRow_skip _ _ _ _ _ _ hd]
      exact hws4
  · unfold appendTbl
    rw [h1]
    obtain ⟨hmc, hxc⟩ := range_boundaries_pos tbl.ref mc mr xc xr hb
    exact range_boundaries_make_ref mc mr xc (xr + 1) (by omega) (by omega)

/-- C3 witness: appending a zoned timestamp and a number to the two-column
table writes the converted timestamp at `(3, 1)`, the number at `(3, 2)`,
and grows the range from `A1:B2` to `A1:B3`. -/
theorem c3_append_writes_and_grows_witness :
    (appendTV wsEmpty tblTwo rvW).isOk = true ∧
    (appendWS wsEmpty tblTwo rvW).cellVal (3, 1) = some (.dt 660 none) ∧
    (appendWS wsEmpty tblTwo rvW).cellVal (3, 2) = some (.int 7) ∧
    range_boundaries (appendTbl wsEmpty tblTwo rvW).ref =
      some (1, 1, 2, 3) := by
  have H := c3_append_writes_and_grows wsEmpty tblTwo rvW 1 1 2 2 rfl
    (by decide) (by decide) (by decide) (by decide) (by decide)
  refine ⟨H.1, ?_, ?_, H.2.2⟩
  · exact H.2.1 "Date" (.dt 600 (some 0)) (by decide)
  · exact H.2.1 "Load" (.int 7) (by decide)

/- ## Claim C4: formula continuation -/

/-- Step 5 at the new row, packaged: with at least one data row, the value
of the new-row cell of every in-range column is `formulaFill` of the
source cell (previous last row) and the current destination value, at row
delta 1; cells in other rows are untouched by step 5. -/
theorem fixupRow_cellVal (mc mr xc xr : Nat) (w : Worksheet) (c : Nat)
    (hd : mr < xr) (hm : mc ≤ c) (hxc : c ≤ xc) :
    (fixupRow mc mr xc xr (xr + 1) w).cellVal (xr + 1, c) =
      formulaFill (w.cellVal (xr, c)) (w.cellVal (xr + 1, c)) 1 ∧
    (∀ r c', r ≠ xr + 1 →
      (fixupRow mc mr xc xr (xr + 1) w).cellVal (r, c') = w.cellVal (r, c')) := by
  rw [fixupRow_eq_loop _ _ _ _ _ _ hd]
  constructor
  · have hmem : c ∈ colRangeList mc xc := List.mem_range'_1.mpr ⟨hm, by omega⟩
    rw [loopCols_cellVal_target xr (xr + 1) c (colRangeList mc xc) _
      (show (colRangeList mc xc).Nodup from List.nodup_range' ..) hmem (by omega)]
    have hsub : xr + 1 - xr = 1 := by omega
    rw [hsub]
  · intro r c' hr
    rw [loopCols_cellVal_row_frame xr (xr + 1) _ _ r c' hr]

/-- C4 counterexample: the claim equates "the destination cell's value is
still empty" with "the column is not part of Row Values". These are not
equivalent: a `Row Values` entry can carry `None` (the extractor yields
`None` for missing FIT fields), in which case nothing is written (openpyxl
does not assign a `None` value), the destination stays empty and the
formula of the previous last row IS translated into it even though the
column is part of Row Values. -/
theorem c4_counterexample :
    "Load" ∈ rvNone.map Prod.fst ∧
    (appendWS wsF tblTwo rvNone).cellVal (3, 2) =
      some (.str "=A3*2") := by
  constructor
  · decide
  · decide

/-- C4 (amended): whenever the append's checks pass and the table has at
least one data row, for every column of the full column range the source
cell of the previous last row is left unchanged, and the destination cell
in the new row receives the translated source formula exactly when its
value is still empty after step 4 (the column is absent from Row Values or
its supplied value was `None`) and the source cell holds a string starting
with the formula marker; the translation shifts relative rows by the row
delta 1 and leaves columns and absolute references unchanged
(`translate_formula`); a destination already holding a value keeps it. -/
theorem c4_formula_propagation (ws : Worksheet) (tbl : Table)
    (rv : List (String × Option Value)) (mc mr xc xr c : Nat)
    (ht : tbl.totalsRowShown = false)
    (hb : range_boundaries tbl.ref = some (mc, mr, xc, xr))
    (hk : ∀ k ∈ rv.map Prod.fst, tbl.cols.contains k = true)
    (hemp : (colRangeList mc xc).any
      (fun c => (ws.cellVal (xr + 1, c)).isSome) = false)
    (hdata : mr < xr) (hc1 : mc ≤ c) (hc2 : c ≤ xc) :
    (appendWS ws tbl rv).cellVal (xr, c) = ws.cellVal (xr, c) ∧
    (appendWS ws tbl rv).cellVal (xr + 1, c) =
      formulaFill (ws.cellVal (xr, c))
        ((writeRowValues mc (xr + 1) tbl.cols rv ws).cellVal (xr + 1, c)) 1 ∧
    (∀ s, ws.cellVal (xr, c) = some (.str s) → startsWithEq s = true →
      (writeRowValues mc (xr + 1) tbl.cols rv ws).cellVal (xr + 1, c) = none →
      (appendWS ws tbl rv).cellVal (xr + 1, c) =
        some (.str (translate_formula s 1))) ∧
    (∀ z, (writeRowValues mc (xr + 1) tbl.cols rv ws).cellVal (xr + 1, c) =
        some z → (appendWS ws tbl rv).cellVal (xr + 1, c) = some z) := by
  have h1 := appendTV_checks ws tbl rv mc mr xc xr ht hb hk
  rw [hemp, if_neg (show ¬(false = true) by simp)] at h1
  have hfix := fixupRow_cellVal mc mr xc xr
    (writeRowValues mc (xr + 1) tbl.cols rv ws) c hdata hc1 hc2
  have hsrc : (writeRowValues mc (xr + 1) tbl.cols rv ws).cellVal (xr, c) =
      ws.cellVal (xr, c) :=
    writeRowValues_row_frame mc (xr + 1) tbl.cols rv ws xr c (by omega)
  have hmain : (appendWS ws tbl rv).cellVal (xr + 1, c) =
      formulaFill (ws.cellVal (xr, c))
        ((writeRowValues mc (xr + 1) tbl.cols rv ws).cellVal (xr + 1, c)) 1 := by
    unfold appendWS
    rw [h1]
    rw [hfix.1, hsrc]
  refine ⟨?_, hmain, ?_, ?_⟩
  · unfold appendWS
    rw [h1]
    rw [hfix.2 xr c (by omega), hsrc]
  · intro s hs hstart hdst
    rw [hmain, hdst, hs]
    unfold formulaFill
    dsimp only
    rw [if_pos ⟨rfl, hstart⟩]
  · intro z hz
    rw [hmain, hz, formulaFill_some]

/-- C4 witness: a column absent from Row Values whose source cell holds
`"=A2*2"` receives `"=A3*2"` in the new row. -/
theorem c4_formula_propagation_witness :
    (appendWS wsF tblTwo [("Date", some (.int 1))]).cellVal (3, 2) =
      some (.str "=A3*2") :=
  (c4_formula_propagation wsF tblTwo [("Date", some (.int 1))] 1 1 2 2 2
    rfl (by decide) (by decide) (by decide) (by decide) (by decide)
    (by decide)).2.2.1 "=A2*2" rfl (by decide) (by decide)

/- ## Claim C5: per-cell style copy -/

theorem fixupRow_heap_ext (mc mr xc xr ri : Nat) (w : Worksheet) :
    ∃ t, (fixupRow mc mr xc xr ri w).heap = w.heap ++ t := by
  unfold fixupRow
  by_cases hd : mr < xr
  · rw [if_pos hd]
    exact loopCols_heap_ext xr ri (colRangeList mc xc) _
  · rw [if_neg hd]
    exact ⟨[], by simp⟩

theorem fixupRow_style_frame (mc mr xc xr ri : Nat) (w : Worksheet)
    (r c : Nat) (hr : r ≠ ri) :
    (fixupRow mc mr xc xr ri w).cellStyle (r, c) = w.cellStyle (r, c) := by
  unfold fixupRow
  by_cases hd : mr < xr
  · rw [if_pos hd]
    rw [loopCols_cellStyle_row_frame xr ri (colRangeList mc xc) _ r c hr]
  · rw [if_neg hd]

theorem fixupRow_style (mc mr xc xr : Nat) (w : Worksheet) (c a : Nat)
    (hd : mr < xr) (hm : mc ≤ c) (hxc : c ≤ xc)
    (hsty : w.cellStyle (xr, c) = some a) (ha : a < w.heap.length) :
    ∃ b, (fixupRow mc mr xc xr (xr + 1) w).cellStyle (xr + 1, c) = some b ∧
      a < b ∧ b < (fixupRow mc mr xc xr (xr + 1) w).heap.length ∧
      (fixupRow mc mr xc xr (xr + 1) w).heap.getD b 0 = w.heap.getD a 0 := by
  rw [fixupRow_eq_loop _ _ _ _ _ _ hd]
  have hmem : c ∈ colRangeList mc xc := List.mem_range'_1.mpr ⟨hm, by omega⟩
  exact loopCols_style_target xr (xr + 1) c a (colRangeList mc xc) _
    (List.nodup_range' ..) hmem (by omega) hsty ha

/-- C5: whenever the append's checks pass, the table has at least one data
row and the source cell (previous last row, column `c` of the range)
carries a style (a valid heap reference), then afterwards the destination
cell in the new row carries a style too; the source cell still carries its
original style object, whose value is unchanged; the destination's style
object equals the source's by value but is a different object (a fresh
copy, never a shared reference); and mutating the destination cell's style
object afterwards does not alter the source cell's style value. -/
theorem c5_style_copy (ws : Worksheet) (tbl : Table)
    (rv : List (String × Option Value)) (mc mr xc xr c a : Nat)
    (ht : tbl.totalsRowShown = false)
    (hb : range_boundaries tbl.ref = some (mc, mr, xc, xr))
    (hk : ∀ k ∈ rv.map Prod.fst, tbl.cols.contains k = true)
    (hemp : (colRangeList mc xc).any
      (fun c => (ws.cellVal (xr + 1, c)).isSome) = false)
    (hdata : mr < xr) (hc1 : mc ≤ c) (hc2 : c ≤ xc)
    (hsty : ws.cellStyle (xr, c) = some a) (ha : a < ws.heap.length) :
    ((appendWS ws tbl rv).cellStyle (xr + 1, c)).isSome = true ∧
    (appendWS ws tbl rv).cellStyle (xr, c) = some a ∧
    styleVal (appendWS ws tbl rv)
        (((appendWS ws tbl rv).cellStyle (xr + 1, c)).getD 0) =
      styleVal ws a ∧
    styleVal (appendWS ws tbl rv) a = styleVal ws a ∧
    ((appendWS ws tbl rv).cellStyle (xr + 1, c)).getD 0 ≠ a ∧
    (∀ s, styleVal (setStyleVal (appendWS ws tbl rv)
        (((appendWS ws tbl rv).cellStyle (xr + 1, c)).getD 0) s) a =
      styleVal (appendWS ws tbl rv) a) := by
  have h1 := appendTV_checks ws tbl rv mc mr xc xr ht hb hk
  rw [hemp, if_neg (show ¬(false = true) by simp)] at h1
  have hoth := writeRowValues_other mc (xr + 1) tbl.cols rv ws
  have hsty4 : (writeRowValues mc (xr + 1) tbl.cols rv ws).cellStyle (xr, c) =
      some a := by
    rw [hoth.1, hsty]
  have ha4 : a < (writeRowValues mc (xr + 1) tbl.cols rv ws).heap.length := by
    rw [hoth.2.1]
    exact ha
  obtain ⟨b, hb1, hb2, hb3, hb4⟩ := fixupRow_style mc mr xc xr
    (writeRowValues mc (xr + 1) tbl.cols rv ws) c a hdata hc1 hc2 hsty4 ha4
  have hApp : appendWS ws tbl rv = fixupRow mc mr xc xr (xr + 1)
      (writeRowValues mc (xr + 1) tbl.cols rv ws) := by
    unfold appendWS
    rw [h1]
  obtain ⟨t, hext⟩ := fixupRow_heap_ext mc mr xc xr (xr + 1)
    (writeRowValues mc (xr + 1) tbl.cols rv ws)
  have hvala : styleVal (appendWS ws tbl rv) a = styleVal ws a := by
    rw [hApp]
    unfold styleVal
    rw [hext, List.getD_append _ _ 0 _ ha4, hoth.2.1]
  have hgetb : ((appendWS ws tbl rv).cellStyle (xr + 1, c)).getD 0 = b := by
    rw [hApp, hb1]
    rfl
  refine ⟨?_, ?_, ?_, hvala, ?_, ?_⟩
  · rw [hApp, hb1]
    rfl
  · rw [hApp, fixupRow_style_frame mc mr xc xr (xr + 1) _ xr c (by omega),
      hoth.1, hsty]
  · rw [hgetb, hApp]
    unfold styleVal
    rw [hb4, hoth.2.1]
  · rw [hgetb]
    omega
  · intro s
    rw [hgetb]
    unfold setStyleVal styleVal
    dsimp only
    rw [getD_set_ne _ _ _ _ (by omega)]

/-- C5 witness: with a styled source cell whose style object is heap
address 0 (payload 42), the destination cell of the new row receives a
fresh style object with the same payload, and mutating it leaves the
source style intact. -/
theorem c5_style_copy_witness :
    ((appendWS wsSty tblTwo [("Date", some (.int 1))]).cellStyle (3, 2)).isSome
      = true ∧
    styleVal (appendWS wsSty tblTwo [("Date", some (.int 1))])
      (((appendWS wsSty tblTwo [("Date", some (.int 1))]).cellStyle
        (3, 2)).getD 0) = 42 ∧
    ((appendWS wsSty tblTwo [("Date", some (.int 1))]).cellStyle
      (3, 2)).getD 0 ≠ 0 := by
  have H := c5_style_copy wsSty tblTwo [("Date", some (.int 1))] 1 1 2 2 2 0
    rfl (by decide) (by decide) (by decide) (by decide) (by decide)
    (by decide) rfl (by decide)
  exact ⟨H.1, H.2.2.1, H.2.2.2.2.1⟩
